import Mathlib

/-!
Shallow embedding of `src/examples/terminal.rs` from the `adam_fov_rs`
repository: a 2D grid visibility demo.  Machine integers (Rust `i32`,
`u32`, `usize`) are modelled as `Int`/`Nat`; casts that matter are made
explicit (`usizeOfI32`, `u32_as_i32`).  Rust `f32` values (screen/world
coordinates, scroll deltas) are modelled as `ℚ`.  A Rust vector access
that may panic is modelled with `Option`: `none` is the panic.
-/

/-- glam `IVec2`: a pair of `i32` coordinates.  `Default` is the zero
vector, as derived for `CursorPos` in the source. -/
structure IVec2 where
  x : Int
  y : Int
deriving DecidableEq, Repr

instance : Inhabited IVec2 := ⟨⟨0, 0⟩⟩

/-- The Rust cast `v as usize` applied to an `i32` value on a 64-bit
target: the value is sign-extended and reinterpreted modulo `2^64`. -/
def usizeOfI32 (v : Int) : Nat := (v % (2 : Int) ^ 64).toNat

/-- The Rust cast `v as i32` applied to a `u32` value: reinterpret the
low 32 bits as a signed integer. -/
def u32_as_i32 (v : Nat) : Int :=
  if v % 2 ^ 32 < 2 ^ 31 then ((v % 2 ^ 32 : Nat) : Int)
  else ((v % 2 ^ 32 : Nat) : Int) - 2 ^ 32

/-- Source `struct Map` from terminal.rs: two boolean planes plus `i32`
dimensions. -/
structure Map where
  visible_points : List Bool
  opaque_points : List Bool
  width : Int
  height : Int
deriving DecidableEq, Repr

namespace Map

/-- Source `Map::new(size: (u32,u32))`: `len = (w * h) as usize` (u32 product,
wrapping modulo `2^32`), both planes `vec![false; len]`, dimensions cast
`as i32`. -/
def new (size : Nat × Nat) : Map :=
  let w := size.1
  let h := size.2
  let len := (w * h) % 2 ^ 32
  { visible_points := List.replicate len false
    opaque_points := List.replicate len false
    width := u32_as_i32 w
    height := u32_as_i32 h }

/-- Source `Map::to_index`: `(p.y * self.width + p.x) as usize`. -/
def to_index (m : Map) (p : IVec2) : Nat :=
  usizeOfI32 (p.y * m.width + p.x)

/-- Source `Map::is_in_bounds` (from the `VisiblityMap` impl):
`p.x >= 0 && p.x < width && p.y >= 0 && p.y < height`. -/
def is_in_bounds (m : Map) (p : IVec2) : Bool :=
  decide (0 ≤ p.x) && decide (p.x < m.width) &&
  decide (0 ≤ p.y) && decide (p.y < m.height)

/-- Source `Map::is_visible(x, y)`: `false` when out of bounds, otherwise the
stored visible bit.  The in-bounds vector access may panic (`none`). -/
def is_visible (m : Map) (x y : Int) : Option Bool :=
  if ¬ m.is_in_bounds ⟨x, y⟩ then some false
  else m.visible_points[m.to_index ⟨x, y⟩]?

/-- Source `Map::is_opaque(p)` (from the `VisiblityMap` impl; named
`is_opaque_at` here): `true` when out
of bounds, otherwise the stored opaque bit. -/
def is_opaque_at (m : Map) (p : IVec2) : Option Bool :=
  if ¬ m.is_in_bounds p then some true
  else m.opaque_points[m.to_index p]?

/-- Source `Map::toggle_opaque(p)` (named `toggle_opaque_at` here):
unguarded
`self.opaque_points[i] = !self.opaque_points[i]`; panics (`none`) iff
the linearized index is outside the vector. -/
def toggle_opaque_at (m : Map) (p : IVec2) : Option Map :=
  match m.opaque_points[m.to_index p]? with
  | none => none
  | some b =>
    some { m with opaque_points := m.opaque_points.set (m.to_index p) (!b) }

/-- Source `Map::set_visible(p)` (from the `VisiblityMap` impl): no-op when out
of bounds, otherwise sets the bit true. -/
def set_visible (m : Map) (p : IVec2) : Map :=
  if ¬ m.is_in_bounds p then m
  else { m with visible_points := m.visible_points.set (m.to_index p) true }

/-- Source `Map::clear_visible`:
`self.visible_points = vec![false; (width * height) as usize]`. -/
def clear_visible (m : Map) : Map :=
  { m with visible_points := List.replicate (usizeOfI32 (m.width * m.height)) false }

/-- Well-formedness of a `Map` as produced by `Map::new`: both planes
have length `width * height` and the dimensions are `i32` values. -/
def WF (m : Map) : Prop :=
  m.visible_points.length = (m.width * m.height).toNat ∧
  m.opaque_points.length = (m.width * m.height).toNat ∧
  m.width ≤ 2 ^ 31 ∧ m.height ≤ 2 ^ 31

instance (m : Map) : Decidable m.WF := by unfold WF; infer_instance

end Map

/-- Source `world_to_map` from terminal.rs: add half the grid dimensions
(`i32` division truncates toward zero, `Int.tdiv`) to a floored world
position. -/
def world_to_map (m : Map) (world : IVec2) : IVec2 :=
  let half_w := Int.tdiv m.width 2
  let half_h := Int.tdiv m.height 2
  ⟨world.x + half_w, world.y + half_h⟩

/-- Rust `f32::ceil` on the rational model: `⌈q⌉ = -⌊-q⌋`, written with
the computable `Rat.floor`. -/
def rustCeil (q : ℚ) : Int := -(Rat.floor (-q))

theorem rat_floor_eq (q : ℚ) : Rat.floor q = ⌊q⌋ := rfl

theorem rustCeil_eq_ceil (q : ℚ) : rustCeil q = ⌈q⌉ := by
  rw [rustCeil, rat_floor_eq, Int.floor_neg, neg_neg]

/-- glam `Vec3` over the rational model of `f32`. -/
structure Vec3q where
  x : ℚ
  y : ℚ
  z : ℚ
deriving DecidableEq, Repr

/-- glam `Vec4` over the rational model of `f32`. -/
structure Vec4q where
  x : ℚ
  y : ℚ
  z : ℚ
  w : ℚ
deriving DecidableEq, Repr

/-- glam `Mat4`: four column vectors. -/
structure Mat4q where
  xAxis : Vec4q
  yAxis : Vec4q
  zAxis : Vec4q
  wAxis : Vec4q
deriving DecidableEq, Repr

def Vec4q.scale (v : Vec4q) (c : ℚ) : Vec4q :=
  ⟨v.x * c, v.y * c, v.z * c, v.w * c⟩

def Vec4q.add (a b : Vec4q) : Vec4q :=
  ⟨a.x + b.x, a.y + b.y, a.z + b.z, a.w + b.w⟩

/-- glam `Mat4 * Vec4`: linear combination of the columns. -/
def Mat4q.mulVec4 (m : Mat4q) (v : Vec4q) : Vec4q :=
  (((m.xAxis.scale v.x).add (m.yAxis.scale v.y)).add (m.zAxis.scale v.z)).add
    (m.wAxis.scale v.w)

/-- glam `Mat4 * Mat4` (column-major). -/
def Mat4q.mul (a b : Mat4q) : Mat4q :=
  ⟨a.mulVec4 b.xAxis, a.mulVec4 b.yAxis, a.mulVec4 b.zAxis, a.mulVec4 b.wAxis⟩

/-- glam `Mat4::project_point3`: transform `(v, 1)` and divide by the
resulting `w` (in `ℚ`, division by `0` yields `0` where `f32` would give
an infinity; no claim depends on that case). -/
def Mat4q.projectPoint3 (m : Mat4q) (v : Vec3q) : Vec3q :=
  let r := m.mulVec4 ⟨v.x, v.y, v.z, 1⟩
  ⟨r.x / r.w, r.y / r.w, r.z / r.w⟩

/-- The identity `Mat4`, used for concrete camera inputs. -/
def Mat4q.id : Mat4q :=
  ⟨⟨1, 0, 0, 0⟩, ⟨0, 1, 0, 0⟩, ⟨0, 0, 1, 0⟩, ⟨0, 0, 0, 1⟩⟩

/-- The normalized-device-coordinate computation from `screen_to_world`:
`ndc = (screen_pos / window_size) * 2.0 - Vec2::ONE` (componentwise). -/
def ndcOf (window_size screen_pos : ℚ × ℚ) : ℚ × ℚ :=
  ((screen_pos.1 / window_size.1) * 2 - 1, (screen_pos.2 / window_size.2) * 2 - 1)

/-- Source `screen_to_world` from terminal.rs.  The camera's world transform
(`camera_transform.compute_matrix()`) and the inverse projection matrix
(`camera.projection_matrix.inverse()`, computed by the external glam
library) are taken as matrix inputs; the window looked up by
`windows.get(camera.window)` is assumed present and supplies
`window_size`.  `below_min = !ndc.cmpge(-1)`, `above_max = !ndc.cmplt(1)`
componentwise; reject when any component of either is set. -/
def screen_to_world (camera_proj_inv camera_transform : Mat4q)
    (window_size screen_pos : ℚ × ℚ) : Option Vec3q :=
  let ndc := ndcOf window_size screen_pos
  let below_min_any := !(decide (-1 ≤ ndc.1)) || !(decide (-1 ≤ ndc.2))
  let above_max_any := !(decide (ndc.1 < 1)) || !(decide (ndc.2 < 1))
  if below_min_any || above_max_any then none
  else
    let ndc_to_world := camera_transform.mul camera_proj_inv
    let world_pos := ndc_to_world.projectPoint3 ⟨ndc.1, ndc.2, -1⟩
    some ⟨world_pos.x, world_pos.y, 0⟩

/-- Source `struct CursorPos(IVec2)` with `#[derive(Default)]`: the derived
default is the zero vector. -/
structure CursorPos where
  pos : IVec2
deriving DecidableEq, Repr

/-- Source `CursorPos::default()`. -/
def CursorPos.default : CursorPos := ⟨⟨0, 0⟩⟩

/-- Source `update_view_range` from terminal.rs, one tick: fold over this
tick's `MouseWheel` events; `delta = ev.y.ceil() as i32`; a zero delta
executes `return`, ending the tick's processing without writing;
otherwise `view_range.0 += delta`.  The `Bool` tracks whether the
`ViewRange` resource was written this tick (Bevy's `ResMut` change
flag, which `update_cursor_pos` later observes as `is_changed`). -/
def update_view_range (view_range : Int) (wrote : Bool) (events : List ℚ) :
    Int × Bool :=
  match events with
  | [] => (view_range, wrote)
  | e :: rest =>
    let delta := rustCeil e
    if delta = 0 then (view_range, wrote)
    else update_view_range (view_range + delta) true rest

/-- Result of one `update_cursor_pos` tick: the cursor cache, the map,
and whether the dirty branch (`clear_visible` + `fov::compute`) ran. -/
structure CursorTick where
  cursor_pos : IVec2
  map : Map
  recomputed : Bool
deriving Repr

/-- Source `update_cursor_pos` from terminal.rs, one tick.  `fov_compute`
stands for the external `fov::compute` of the `adam_fov_rs` crate
(consumed through the `VisiblityMap` capability surface; its internals
are outside this file's scope).  `cursor_position` is
`window.cursor_position()`; `view_range_changed` is
`view_range.is_changed()`.  The floored world position
(`pos.truncate().floor().as_i32()`) is compared against the cached
`CursorPos`; on change (or a set change flag) the map's visible plane is
cleared and the FOV routine runs at `world_to_map`'s grid position. -/
def update_cursor_pos (fov_compute : IVec2 → Int → Map → Map)
    (cursor_pos : IVec2) (map : Map) (view_range : Int)
    (view_range_changed : Bool) (camera_proj_inv camera_transform : Mat4q)
    (window_size : ℚ × ℚ) (cursor_position : Option (ℚ × ℚ)) : CursorTick :=
  match cursor_position with
  | none => ⟨cursor_pos, map, false⟩
  | some screen_pos =>
    match screen_to_world camera_proj_inv camera_transform window_size screen_pos with
    | none => ⟨cursor_pos, map, false⟩
    | some world =>
      let pos : IVec2 := ⟨Rat.floor world.x, Rat.floor world.y⟩
      if cursor_pos ≠ pos ∨ view_range_changed = true then
        let map' := map.clear_visible
        let p := world_to_map map' pos
        ⟨pos, fov_compute p view_range map', true⟩
      else ⟨cursor_pos, map, false⟩

/-- The world→grid conversion as the source composes it: the floored
world position (`update_cursor_pos`, terminal.rs line 58) fed through
`world_to_map` (line 63 / line 77). -/
def cursor_world_to_grid (m : Map) (world : ℚ × ℚ) : IVec2 :=
  world_to_map m ⟨Rat.floor world.1, Rat.floor world.2⟩

/-! ## Shared helper lemmas -/

theorem list_set_of_getElem? {α : Type} {l : List α} {i : Nat} {b : α}
    (h : l[i]? = some b) : l.set i b = l := by
  induction l generalizing i with
  | nil => simp at h
  | cons a t ih =>
    cases i with
    | zero =>
      simp only [List.getElem?_cons_zero, Option.some.injEq] at h
      simp [List.set, h]
    | succ n =>
      simp only [List.getElem?_cons_succ] at h
      simp [List.set, ih h]

theorem in_bounds_iff (m : Map) (p : IVec2) :
    m.is_in_bounds p = true ↔
      0 ≤ p.x ∧ p.x < m.width ∧ 0 ≤ p.y ∧ p.y < m.height := by
  simp [Map.is_in_bounds, and_assoc]

theorem usizeOfI32_small {v : Int} (h0 : 0 ≤ v) (h64 : v < 2 ^ 64) :
    usizeOfI32 v = v.toNat := by
  unfold usizeOfI32
  omega

theorem to_index_bounds (m : Map) (p : IVec2)
    (hb : m.is_in_bounds p = true)
    (hw : m.width ≤ 2 ^ 31) (hh : m.height ≤ 2 ^ 31) :
    0 ≤ p.y * m.width + p.x ∧
    p.y * m.width + p.x < m.width * m.height ∧
    m.to_index p = (p.y * m.width + p.x).toNat ∧
    m.to_index p < (m.width * m.height).toNat ∧
    usizeOfI32 (m.width * m.height) = (m.width * m.height).toNat := by
  obtain ⟨hx0, hxw, hy0, hyh⟩ := (in_bounds_iff m p).mp hb
  have hw1 : (1 : Int) ≤ m.width := by omega
  have hh1 : (1 : Int) ≤ m.height := by omega
  have hi0 : 0 ≤ p.y * m.width + p.x :=
    add_nonneg (mul_nonneg hy0 (by omega)) hx0
  have hiwh : p.y * m.width + p.x < m.width * m.height := by
    nlinarith [mul_le_mul_of_nonneg_right (show p.y + 1 ≤ m.height by omega)
      (show (0 : Int) ≤ m.width by omega)]
  have hwh0 : (0 : Int) ≤ m.width * m.height := mul_nonneg (by omega) (by omega)
  have hwh62 : m.width * m.height ≤ 2 ^ 62 := by nlinarith
  have hidx : m.to_index p = (p.y * m.width + p.x).toNat :=
    usizeOfI32_small hi0 (by omega)
  have hcast : usizeOfI32 (m.width * m.height) = (m.width * m.height).toNat :=
    usizeOfI32_small hwh0 (by omega)
  refine ⟨hi0, hiwh, hidx, ?_, hcast⟩
  rw [hidx]
  omega

/-! ## Claim theorems -/

/-- C1: for every `Map` and every coordinate outside
`[0, width) × [0, height)`, `is_opaque_at` returns `true` and `is_visible`
returns `false`, regardless of the stored planes. -/
theorem out_of_bounds_opaque_and_invisible (m : Map) (x y : Int)
    (h : m.is_in_bounds ⟨x, y⟩ = false) :
    m.is_opaque_at ⟨x, y⟩ = some true ∧ m.is_visible x y = some false := by
  constructor
  · simp [Map.is_opaque_at, h]
  · simp [Map.is_visible, h]

/-- Witness for C1 at a concrete out-of-bounds coordinate of a 30×30
map. -/
theorem out_of_bounds_opaque_and_invisible_witness :
    (Map.new (30, 30)).is_in_bounds ⟨-1, 3⟩ = false ∧
    (Map.new (30, 30)).is_opaque_at ⟨-1, 3⟩ = some true ∧
    (Map.new (30, 30)).is_visible (-1) 3 = some false :=
  ⟨by decide, out_of_bounds_opaque_and_invisible (Map.new (30, 30)) (-1) 3 (by decide)⟩

/-- C6: after `clear_visible`, `is_visible` returns `false` at every
coordinate, in bounds or not, whatever the previous visible plane held.
The dimension bounds record that the `i32` fields fit in 32 bits. -/
theorem clear_visible_all_invisible (m : Map) (x y : Int)
    (hw : m.width ≤ 2 ^ 31) (hh : m.height ≤ 2 ^ 31) :
    m.clear_visible.is_visible x y = some false := by
  have hin : m.clear_visible.is_in_bounds ⟨x, y⟩ = m.is_in_bounds ⟨x, y⟩ := rfl
  have hti : m.clear_visible.to_index ⟨x, y⟩ = m.to_index ⟨x, y⟩ := rfl
  have hvp : m.clear_visible.visible_points =
      List.replicate (usizeOfI32 (m.width * m.height)) false := rfl
  by_cases hb : m.is_in_bounds ⟨x, y⟩ = true
  · obtain ⟨-, -, -, hlt, hcast⟩ := to_index_bounds m ⟨x, y⟩ hb hw hh
    unfold Map.is_visible
    rw [hin, hb, hti, hvp, if_neg (by simp)]
    rw [List.getElem?_replicate, hcast, if_pos hlt]
  · unfold Map.is_visible
    rw [hin, if_pos (by simp [hb])]

/-- Witness for C6: a 2×2 map with `(0,0)` set visible; after the clear
that same coordinate reads back `false`. -/
theorem clear_visible_all_invisible_witness :
    ((Map.new (2, 2)).set_visible ⟨0, 0⟩).is_visible 0 0 = some true ∧
    ((Map.new (2, 2)).set_visible ⟨0, 0⟩).clear_visible.is_visible 0 0 = some false :=
  ⟨by decide,
    clear_visible_all_invisible ((Map.new (2, 2)).set_visible ⟨0, 0⟩) 0 0
      (by decide) (by decide)⟩

/-- C8: toggling the opaque bit twice at an in-bounds coordinate of a
well-formed map restores the map exactly (in particular the opaque bit),
and neither call panics. -/
theorem toggle_opaque_result (m : Map) (p : IVec2) {b : Bool}
    (hget : m.opaque_points[m.to_index p]? = some b) :
    m.toggle_opaque_at p = some (Map.mk m.visible_points
      (m.opaque_points.set (m.to_index p) (!b)) m.width m.height) := by
  unfold Map.toggle_opaque_at
  rw [hget]

theorem toggle_opaque_involutive (m : Map) (p : IVec2) (hwf : m.WF)
    (hb : m.is_in_bounds p = true) :
    (m.toggle_opaque_at p).bind (fun m1 => m1.toggle_opaque_at p) = some m := by
  obtain ⟨-, hlen, hw, hh⟩ := hwf
  obtain ⟨-, -, -, hlt, -⟩ := to_index_bounds m p hb hw hh
  have hlt' : m.to_index p < m.opaque_points.length := by
    rw [hlen]
    exact hlt
  obtain ⟨b, hget⟩ : ∃ b, m.opaque_points[m.to_index p]? = some b :=
    ⟨m.opaque_points.get ⟨m.to_index p, hlt'⟩, List.getElem?_eq_getElem hlt'⟩
  have h1 := toggle_opaque_result m p hget
  have h2 := toggle_opaque_result
    (Map.mk m.visible_points (m.opaque_points.set (m.to_index p) (!b)) m.width m.height) p
    (List.getElem?_set_eq_of_lt (!b) (by simpa using hlt'))
  have hti : Map.to_index (Map.mk m.visible_points
      (m.opaque_points.set (m.to_index p) (!b)) m.width m.height) p = m.to_index p := rfl
  rw [hti] at h2
  dsimp only at h2
  rw [h1, Option.some_bind, h2]
  rw [List.set_set, Bool.not_not, list_set_of_getElem? hget]

/-- Witness for C8 on a concrete 2×2 map at `(1,0)`. -/
theorem toggle_opaque_involutive_witness :
    ((Map.new (2, 2)).toggle_opaque_at ⟨1, 0⟩).bind
      (fun m1 => m1.toggle_opaque_at ⟨1, 0⟩) = some (Map.new (2, 2)) :=
  toggle_opaque_involutive (Map.new (2, 2)) ⟨1, 0⟩ (by decide) (by decide)

/-- C9: for a map built by `new((w, h))` (no `u32` overflow in `w * h`,
as the spec requires callers to guarantee) and any in-bounds coordinate,
both planes have length `w * h` and the linear index is strictly below
it, so the four plane accessors stay in range. -/
theorem new_in_bounds_index_lt_length (w h : Nat) (p : IVec2)
    (hw : w < 2 ^ 32) (hh : h < 2 ^ 32) (hwh : w * h < 2 ^ 32)
    (hb : (Map.new (w, h)).is_in_bounds p = true) :
    (Map.new (w, h)).visible_points.length = w * h ∧
    (Map.new (w, h)).opaque_points.length = w * h ∧
    (Map.new (w, h)).to_index p < w * h := by
  have hwmod : w % 2 ^ 32 = w := Nat.mod_eq_of_lt hw
  have hhmod : h % 2 ^ 32 = h := Nat.mod_eq_of_lt hh
  have hvl : (Map.new (w, h)).visible_points.length = w * h := by
    show (List.replicate ((w * h) % 2 ^ 32) false).length = w * h
    rw [List.length_replicate, Nat.mod_eq_of_lt hwh]
  have hol : (Map.new (w, h)).opaque_points.length = w * h := by
    show (List.replicate ((w * h) % 2 ^ 32) false).length = w * h
    rw [List.length_replicate, Nat.mod_eq_of_lt hwh]
  obtain ⟨hx0, hxw, hy0, hyh⟩ := (in_bounds_iff _ p).mp hb
  have hwval : (Map.new (w, h)).width = u32_as_i32 w := rfl
  have hhval : (Map.new (w, h)).height = u32_as_i32 h := rfl
  rw [hwval] at hxw
  rw [hhval] at hyh
  have hwid : u32_as_i32 w = (w : Int) ∧ w < 2 ^ 31 := by
    have hpos : 0 < u32_as_i32 w := lt_of_le_of_lt hx0 hxw
    unfold u32_as_i32 at hpos ⊢
    rw [hwmod] at hpos ⊢
    split_ifs at hpos ⊢ with h1
    · exact ⟨rfl, h1⟩
    · omega
  have hhid : u32_as_i32 h = (h : Int) ∧ h < 2 ^ 31 := by
    have hpos : 0 < u32_as_i32 h := lt_of_le_of_lt hy0 hyh
    unfold u32_as_i32 at hpos ⊢
    rw [hhmod] at hpos ⊢
    split_ifs at hpos ⊢ with h1
    · exact ⟨rfl, h1⟩
    · omega
  obtain ⟨-, -, -, hlt, -⟩ := to_index_bounds (Map.new (w, h)) p hb
    (by rw [hwval, hwid.1]; exact_mod_cast le_of_lt hwid.2)
    (by rw [hhval, hhid.1]; exact_mod_cast le_of_lt hhid.2)
  refine ⟨hvl, hol, ?_⟩
  rw [hwval, hhval, hwid.1, hhid.1] at hlt
  rw [show ((w : Int) * (h : Int)).toNat = w * h by
    rw [← Nat.cast_mul, Int.toNat_natCast]] at hlt
  exact hlt

/-- Witness for C9 on a 30×30 map at `(3, 4)`. -/
theorem new_in_bounds_index_lt_length_witness :
    (Map.new (30, 30)).visible_points.length = 30 * 30 ∧
    (Map.new (30, 30)).opaque_points.length = 30 * 30 ∧
    (Map.new (30, 30)).to_index ⟨3, 4⟩ < 30 * 30 :=
  new_in_bounds_index_lt_length 30 30 ⟨3, 4⟩ (by decide) (by decide) (by decide) (by decide)

/-- C10: `toggle_opaque_at` does not bounds-check; on a map with
`width ≥ 2`, `height ≥ 2` the out-of-bounds coordinate `(-1, y)` with
`1 ≤ y < height` linearizes to the same index as the in-bounds cell
`(width - 1, y - 1)`: the call succeeds and flips that cell's opaque
bit. -/
theorem toggle_opaque_oob_aliases_in_bounds_cell (m : Map) (y : Int) (hwf : m.WF)
    (hw2 : 2 ≤ m.width) (hh2 : 2 ≤ m.height) (hy1 : 1 ≤ y) (hyh : y < m.height) :
    m.is_in_bounds ⟨-1, y⟩ = false ∧
    m.is_in_bounds ⟨m.width - 1, y - 1⟩ = true ∧
    m.toggle_opaque_at ⟨-1, y⟩ = m.toggle_opaque_at ⟨m.width - 1, y - 1⟩ ∧
    ∃ m2, m.toggle_opaque_at ⟨-1, y⟩ = some m2 ∧
      m2.is_opaque_at ⟨m.width - 1, y - 1⟩ =
        (m.is_opaque_at ⟨m.width - 1, y - 1⟩).map (fun v => !v) := by
  have hoob : m.is_in_bounds ⟨-1, y⟩ = false := by
    simp [Map.is_in_bounds]
  have hin : m.is_in_bounds ⟨m.width - 1, y - 1⟩ = true := by
    rw [in_bounds_iff]
    dsimp only
    refine ⟨by omega, by omega, by omega, by omega⟩
  have hEq : m.to_index ⟨-1, y⟩ = m.to_index ⟨m.width - 1, y - 1⟩ := by
    unfold Map.to_index
    congr 1
    ring
  have htog : m.toggle_opaque_at ⟨-1, y⟩ = m.toggle_opaque_at ⟨m.width - 1, y - 1⟩ := by
    unfold Map.toggle_opaque_at
    rw [hEq]
  obtain ⟨-, hlen, hw31, hh31⟩ := hwf
  obtain ⟨-, -, -, hlt, -⟩ := to_index_bounds m ⟨m.width - 1, y - 1⟩ hin hw31 hh31
  have hlt' : m.to_index ⟨m.width - 1, y - 1⟩ < m.opaque_points.length := by
    rw [hlen]
    exact hlt
  obtain ⟨b, hget⟩ : ∃ b, m.opaque_points[m.to_index ⟨m.width - 1, y - 1⟩]? = some b :=
    ⟨m.opaque_points.get ⟨m.to_index ⟨m.width - 1, y - 1⟩, hlt'⟩,
      List.getElem?_eq_getElem hlt'⟩
  have hres := toggle_opaque_result m ⟨m.width - 1, y - 1⟩ hget
  refine ⟨hoob, hin, htog,
    Map.mk m.visible_points
      (m.opaque_points.set (m.to_index ⟨m.width - 1, y - 1⟩) (!b)) m.width m.height,
    by rw [htog]; exact hres, ?_⟩
  have hin2 : Map.is_in_bounds (Map.mk m.visible_points
      (m.opaque_points.set (m.to_index ⟨m.width - 1, y - 1⟩) (!b)) m.width m.height)
      ⟨m.width - 1, y - 1⟩ = true := hin
  have hti2 : Map.to_index (Map.mk m.visible_points
      (m.opaque_points.set (m.to_index ⟨m.width - 1, y - 1⟩) (!b)) m.width m.height)
      ⟨m.width - 1, y - 1⟩ = m.to_index ⟨m.width - 1, y - 1⟩ := rfl
  unfold Map.is_opaque_at
  rw [hin2, hin, hti2]
  rw [if_neg (by simp), if_neg (by simp)]
  dsimp only
  rw [List.getElem?_set_eq_of_lt (!b) hlt', hget]
  rfl

/-- Witness for C10: on a fresh 2×2 map, toggling `(-1, 1)` flips the
opaque bit of `(1, 0)`. -/
theorem toggle_opaque_oob_aliases_in_bounds_cell_witness :
    (Map.new (2, 2)).is_in_bounds ⟨-1, 1⟩ = false ∧
    (Map.new (2, 2)).is_in_bounds ⟨2 - 1, 1 - 1⟩ = true ∧
    (Map.new (2, 2)).toggle_opaque_at ⟨-1, 1⟩ = (Map.new (2, 2)).toggle_opaque_at ⟨2 - 1, 1 - 1⟩ ∧
    ∃ m2, (Map.new (2, 2)).toggle_opaque_at ⟨-1, 1⟩ = some m2 ∧
      m2.is_opaque_at ⟨2 - 1, 1 - 1⟩ =
        ((Map.new (2, 2)).is_opaque_at ⟨2 - 1, 1 - 1⟩).map (fun v => !v) :=
  toggle_opaque_oob_aliases_in_bounds_cell (Map.new (2, 2)) 1 (by decide) (by decide)
    (by decide) (by decide) (by decide)

/-- C5: the source's world→grid conversion is exactly
`floor(world) + (width / 2, height / 2)` with truncating integer
division, and it applies no bounds check: some world positions map
outside the grid and are returned unchanged. -/
theorem world_to_grid_floor_plus_half (m : Map) :
    (∀ world : ℚ × ℚ,
        cursor_world_to_grid m world =
          ⟨⌊world.1⌋ + Int.tdiv m.width 2, ⌊world.2⌋ + Int.tdiv m.height 2⟩) ∧
    ∃ world : ℚ × ℚ, m.is_in_bounds (cursor_world_to_grid m world) = false := by
  constructor
  · intro world
    simp only [cursor_world_to_grid, world_to_map, rat_floor_eq]
  · refine ⟨(((-(Int.tdiv m.width 2) - 1 : Int) : ℚ), 0), ?_⟩
    have hfl : Rat.floor ((-(Int.tdiv m.width 2) - 1 : Int) : ℚ) =
        -(Int.tdiv m.width 2) - 1 := by
      rw [rat_floor_eq]
      exact_mod_cast Int.floor_intCast _
    simp only [cursor_world_to_grid, world_to_map, hfl]
    simp [Map.is_in_bounds]
    intro h
    omega

/-- C4 counterexample: a scroll event of `-0.5` leaves the radius at 5;
the claim demands that it decrease to 4. -/
theorem scroll_neg_half_radius_unchanged :
    (update_view_range 5 false [mkRat (-1) 2]).1 = 5 ∧
    (update_view_range 5 false [mkRat (-1) 2]).1 ≠ 5 - 1 := by
  constructor
  · decide
  · decide

/-- C4 amended: each scroll event adjusts the radius by `ceil(delta)`
(rounding toward `+∞`, so `-0.5` contributes `0`), and an event whose
ceiling is `0` stops the tick's processing of later events without
writing the radius. -/
theorem view_range_adds_event_ceil (r : Int) (d : ℚ) :
    (update_view_range r false [d]).1 = r + ⌈d⌉ ∧
    (rustCeil d = 0 → ∀ rest : List ℚ, update_view_range r false (d :: rest) = (r, false)) := by
  constructor
  · unfold update_view_range
    by_cases h : rustCeil d = 0
    · rw [if_pos h]
      have h0 : (⌈d⌉ : Int) = 0 := by
        rw [← rustCeil_eq_ceil]
        exact h
      simp [h0]
    · rw [if_neg h]
      unfold update_view_range
      rw [rustCeil_eq_ceil]
  · intro h rest
    unfold update_view_range
    rw [if_pos h]

/-- Witness for C4's amended claim: from radius 7, a `-0.5` event leaves
the radius at `7 + ⌈-1/2⌉ = 7`, and stops processing a following `+3`
event. -/
theorem view_range_adds_event_ceil_witness :
    (update_view_range 7 false [mkRat (-1) 2]).1 = 7 + ⌈(mkRat (-1) 2 : ℚ)⌉ ∧
    update_view_range 7 false [mkRat (-1) 2, 3] = (7, false) :=
  ⟨(view_range_adds_event_ceil 7 (mkRat (-1) 2)).1,
    (view_range_adds_event_ceil 7 (mkRat (-1) 2)).2 (by decide) [3]⟩

/-- C2: `screen_to_world` returns no result exactly when the computed
`ndc` has an axis below `-1` or at-or-above `1`; otherwise it returns
the unprojection of `(ndc.x, ndc.y, -1)` through the camera transform
times the inverse projection, re-embedded at `z = 0`. -/
theorem screen_to_world_characterization (camera_proj_inv camera_transform : Mat4q)
    (window_size screen_pos : ℚ × ℚ) :
    screen_to_world camera_proj_inv camera_transform window_size screen_pos =
      if (ndcOf window_size screen_pos).1 < -1 ∨ (ndcOf window_size screen_pos).2 < -1 ∨
          1 ≤ (ndcOf window_size screen_pos).1 ∨ 1 ≤ (ndcOf window_size screen_pos).2 then
        none
      else
        some ⟨((camera_transform.mul camera_proj_inv).projectPoint3
            ⟨(ndcOf window_size screen_pos).1, (ndcOf window_size screen_pos).2, -1⟩).x,
          ((camera_transform.mul camera_proj_inv).projectPoint3
            ⟨(ndcOf window_size screen_pos).1, (ndcOf window_size screen_pos).2, -1⟩).y,
          0⟩ := by
  have hiff :
      (((!decide (-1 ≤ (ndcOf window_size screen_pos).1)) ||
          (!decide (-1 ≤ (ndcOf window_size screen_pos).2))) ||
        ((!decide ((ndcOf window_size screen_pos).1 < 1)) ||
          (!decide ((ndcOf window_size screen_pos).2 < 1)))) = true ↔
      ((ndcOf window_size screen_pos).1 < -1 ∨ (ndcOf window_size screen_pos).2 < -1 ∨
        1 ≤ (ndcOf window_size screen_pos).1 ∨ 1 ≤ (ndcOf window_size screen_pos).2) := by
    simp only [Bool.or_eq_true, Bool.not_eq_true', decide_eq_false_iff_not, not_le, not_lt]
    tauto
  by_cases hc : (ndcOf window_size screen_pos).1 < -1 ∨ (ndcOf window_size screen_pos).2 < -1 ∨
      1 ≤ (ndcOf window_size screen_pos).1 ∨ 1 ≤ (ndcOf window_size screen_pos).2
  · rw [if_pos hc]
    simp only [screen_to_world]
    rw [if_pos (hiff.mpr hc)]
  · rw [if_neg hc]
    simp only [screen_to_world]
    rw [if_neg fun hb => hc (hiff.mp hb)]

/-- C3 amended: the cursor cache starts at the derived default `(0,0)`
(an ordinary position, not a sentinel), and a tick with an available
pointer that unprojects to `world` runs the dirty branch exactly when
the floored world position differs from the cache or the view-range
change flag is set — so a first pointer position landing on `(0,0)`
with the flag clear triggers no recompute. -/
theorem recompute_iff_moved_or_range_changed
    (fov_compute : IVec2 → Int → Map → Map) (cursor_pos : IVec2) (map : Map)
    (view_range : Int) (view_range_changed : Bool)
    (camera_proj_inv camera_transform : Mat4q) (window_size screen_pos : ℚ × ℚ)
    (world : Vec3q)
    (hw : screen_to_world camera_proj_inv camera_transform window_size screen_pos =
      some world) :
    CursorPos.default.pos = ⟨0, 0⟩ ∧
    (update_cursor_pos fov_compute cursor_pos map view_range view_range_changed
        camera_proj_inv camera_transform window_size (some screen_pos)).recomputed =
      ((decide (cursor_pos ≠ ⟨Rat.floor world.x, Rat.floor world.y⟩)) ||
        view_range_changed) := by
  refine ⟨rfl, ?_⟩
  dsimp only [update_cursor_pos]
  rw [hw]
  dsimp only
  by_cases hc : cursor_pos ≠ ⟨Rat.floor world.x, Rat.floor world.y⟩ ∨
      view_range_changed = true
  · rw [if_pos hc]
    rcases hc with h | h
    · simp [h]
    · simp [h]
  · rw [if_neg hc]
    push_neg at hc
    simp [hc.1, hc.2]

/-- C7: when every scroll event of a tick rounds to a zero delta the
radius and its change flag stay untouched, and if the pointer's floored
world position equals the cached cursor position the dirty branch does
not run: no `clear_visible`, no FOV call, map and cache unchanged. -/
theorem zero_deltas_same_cursor_no_recompute
    (view_range : Int) (events : List ℚ) (hev : ∀ e ∈ events, rustCeil e = 0)
    (fov_compute : IVec2 → Int → Map → Map) (map : Map) (cursor_pos : IVec2)
    (camera_proj_inv camera_transform : Mat4q) (window_size screen_pos : ℚ × ℚ)
    (world : Vec3q)
    (hw : screen_to_world camera_proj_inv camera_transform window_size screen_pos =
      some world)
    (hsame : cursor_pos = ⟨Rat.floor world.x, Rat.floor world.y⟩) :
    update_view_range view_range false events = (view_range, false) ∧
    update_cursor_pos fov_compute cursor_pos map view_range
        (update_view_range view_range false events).2 camera_proj_inv camera_transform
        window_size (some screen_pos) = ⟨cursor_pos, map, false⟩ := by
  have hr : update_view_range view_range false events = (view_range, false) := by
    cases events with
    | nil => rfl
    | cons e rest =>
      unfold update_view_range
      rw [if_pos (hev e (List.mem_cons_self e rest))]
  refine ⟨hr, ?_⟩
  rw [hr]
  dsimp only [update_cursor_pos]
  rw [hw]
  dsimp only
  rw [if_neg]
  intro hcon
  rcases hcon with h | h
  · exact h hsame
  · exact Bool.false_ne_true h

/-!
Concrete evaluations.  Batteries marks the rational arithmetic
operations `@[irreducible]`, which blocks `decide`'s elaboration-time
reduction (the kernel itself reduces them fine); the local attribute
below restores default reducibility for these proofs only.
-/

section

set_option allowUnsafeReducibility true

attribute [local semireducible] Rat.add Rat.mul Rat.div Rat.sub Rat.inv

/-- C3 counterexample: `CursorPos`'s derived default is the ordinary
position `(0,0)`, not a sentinel.  With the view-range change flag
clear, a first pointer position that is available, maps inside the
viewport, and floors to the cache's default `(0,0)` triggers no
recompute — the claim says every such first tick recomputes. -/
theorem first_tick_at_default_cursor_no_recompute :
    CursorPos.default.pos = ⟨0, 0⟩ ∧
    screen_to_world Mat4q.id Mat4q.id (2, 2) (mkRat 3 2, mkRat 3 2) =
      some ⟨mkRat 1 2, mkRat 1 2, 0⟩ ∧
    (update_cursor_pos (fun _ _ m => m) CursorPos.default.pos (Map.new (30, 30)) 5 false
        Mat4q.id Mat4q.id (2, 2) (some (mkRat 3 2, mkRat 3 2))).recomputed = false :=
  ⟨rfl, by decide, by decide⟩

/-- Witness for C3's amended claim: a cached cursor `(4,4)` with a
pointer flooring to `(0,0)` and a clear change flag recomputes according
to the `moved-or-changed` disjunction. -/
theorem recompute_iff_moved_or_range_changed_witness :
    (update_cursor_pos (fun _ _ m => m) ⟨4, 4⟩ (Map.new (30, 30)) 5 false
        Mat4q.id Mat4q.id (2, 2) (some (mkRat 3 2, mkRat 3 2))).recomputed =
      ((decide ((⟨4, 4⟩ : IVec2) ≠
          ⟨Rat.floor (mkRat 1 2 : ℚ), Rat.floor (mkRat 1 2 : ℚ)⟩)) || false) :=
  (recompute_iff_moved_or_range_changed (fun _ _ m => m) ⟨4, 4⟩ (Map.new (30, 30)) 5
      false Mat4q.id Mat4q.id (2, 2) (mkRat 3 2, mkRat 3 2) ⟨mkRat 1 2, mkRat 1 2, 0⟩
      (by decide)).2

/-- Witness for C7: one `-0.5` scroll event (rounding to zero) and a
pointer that floors to the cached `(0,0)`: radius, flag, cursor cache
and map all unchanged. -/
theorem zero_deltas_same_cursor_no_recompute_witness :
    update_view_range 5 false [mkRat (-1) 2] = (5, false) ∧
    update_cursor_pos (fun _ _ m => m) ⟨0, 0⟩ (Map.new (30, 30)) 5
        (update_view_range 5 false [mkRat (-1) 2]).2 Mat4q.id Mat4q.id (2, 2)
        (some (mkRat 3 2, mkRat 3 2)) = ⟨⟨0, 0⟩, Map.new (30, 30), false⟩ :=
  zero_deltas_same_cursor_no_recompute 5 [mkRat (-1) 2] (by decide) (fun _ _ m => m)
    (Map.new (30, 30)) ⟨0, 0⟩ Mat4q.id Mat4q.id (2, 2) (mkRat 3 2, mkRat 3 2)
    ⟨mkRat 1 2, mkRat 1 2, 0⟩ (by decide) (by decide)

end
